import Mathlib

/-!
Shallow embedding of src/minesweeper.py (classes Sentence and MinesweeperAI)
and verification of the frozen claims about it.

Python sets of board cells are modelled as Finset over ℤ × ℤ (Python ints are
unbounded; negative coordinates are representable, as in the source).  The
knowledge base is an ordered list of Sentence values; Python object identity
is handled where it matters by reasoning positionally (mutation in place never
reorders the list, and removal is by value equality, matching Python
list.remove together with the Sentence \_\_eq\_\_ method).
-/

abbrev Cell := ℤ × ℤ

/-- Sentence (minesweeper.py lines 87-135): a set of board cells and a count
of the number of those cells which are mines.  Equality compares cells and
count, exactly like the Python method on lines 98-99. -/
structure Sentence where
  cells : Finset Cell
  count : ℤ
deriving DecidableEq

/-- Python comparison of a set with an integer (line 115: self.cells == 0).
A Python set never equals an integer, so the comparison is always false;
both arguments are ignored. -/
def py_set_eq_int (_s : Finset Cell) (_n : ℤ) : Bool := false

/-- Sentence.known_mines (lines 104-109): returns the cell set when
len(cells) == count, and falls through (None) otherwise. -/
def Sentence.known_mines (s : Sentence) : Option (Finset Cell) :=
  if (s.cells.card : ℤ) = s.count then some s.cells else none

/-- Sentence.known_safes (lines 111-116): the guard is the Python expression
self.cells == 0, a set-to-integer comparison that is always false, so the
method always falls through and returns None. -/
def Sentence.known_safes (s : Sentence) : Option (Finset Cell) :=
  if py_set_eq_int s.cells 0 then some s.cells else none

/-- Sentence.mark_mine (lines 118-125): if the cell is a member, discard it
and decrement count; no-op otherwise. -/
def Sentence.mark_mine (s : Sentence) (cell : Cell) : Sentence :=
  if cell ∈ s.cells then ⟨s.cells.erase cell, s.count - 1⟩ else s

/-- Sentence.mark_safe (lines 128-134): if the cell is a member, discard it;
count is unchanged; no-op otherwise. -/
def Sentence.mark_safe (s : Sentence) (cell : Cell) : Sentence :=
  if cell ∈ s.cells then ⟨s.cells.erase cell, s.count⟩ else s

/-- Effect on one sentence of calling Sentence.mark_mine once for every cell
of the finite set ms (in any order): every member of ms is removed and count
drops by one for each removed cell that was present.  The per-cell calls
commute, so the bulk form is order-independent. -/
def Sentence.mark_mine_all (s : Sentence) (ms : Finset Cell) : Sentence :=
  ⟨s.cells \ ms, s.count - ((s.cells ∩ ms).card : ℤ)⟩

/-- Effect on one sentence of calling Sentence.mark_safe once for every cell
of ms: members of ms are removed, count is unchanged. -/
def Sentence.mark_safe_all (s : Sentence) (ms : Finset Cell) : Sentence :=
  ⟨s.cells \ ms, s.count⟩

/-- MinesweeperAI state (lines 143-157): grid dimensions, the cells already
clicked, the cells known to be mines or safe, and the list of sentences. -/
structure AIState where
  height : ℕ
  width : ℕ
  moves_made : Finset Cell
  mines : Finset Cell
  safes : Finset Cell
  knowledge : List Sentence
deriving DecidableEq

/-- MinesweeperAI constructor (lines 143-157): empty sets, empty knowledge. -/
def AIState.init (height width : ℕ) : AIState :=
  ⟨height, width, ∅, ∅, ∅, []⟩

/-- MinesweeperAI.mark_mine (lines 159-172): add the cell to mines, apply
Sentence.mark_mine to every sentence, then remove every sentence whose cell
set is now empty.  The Python loop mutates each sentence object of a shallow
copy in place and then calls list.remove (removal by value equality) once for
each emptied occurrence, which is exactly a map followed by a filter. -/
def AIState.mark_mine (st : AIState) (cell : Cell) : AIState :=
  { st with
    mines := insert cell st.mines,
    knowledge := (st.knowledge.map (fun s => s.mark_mine cell)).filter
      (fun s => decide (s.cells ≠ ∅)) }

/-- MinesweeperAI.mark_safe (lines 174-187): symmetric to mark_mine. -/
def AIState.mark_safe (st : AIState) (cell : Cell) : AIState :=
  { st with
    safes := insert cell st.safes,
    knowledge := (st.knowledge.map (fun s => s.mark_safe cell)).filter
      (fun s => decide (s.cells ≠ ∅)) }

/-- The loop `for cell in ms: self.mark_mine(cell)` over a snapshot set ms
(used on lines 234-236 and 288-290).  When ms is empty the loop body never
runs and the state is untouched (in particular no pruning of empty sentences
happens); otherwise the calls add ms to mines, apply the per-cell sentence
updates (whose composition is Sentence.mark_mine_all) and prune emptied
sentences.  Intermediate pruning between the per-cell calls removes only
sentences that are empty, and empty sentences are left unchanged by further
calls, so pruning once at the end yields the same list. -/
def AIState.mark_mine_each (st : AIState) (ms : Finset Cell) : AIState :=
  if ms = ∅ then st
  else
    { st with
      mines := st.mines ∪ ms,
      knowledge := (st.knowledge.map (fun s => s.mark_mine_all ms)).filter
        (fun s => decide (s.cells ≠ ∅)) }

/-- The loop `for cell in ms: self.mark_safe(cell)` over a snapshot set ms
(used on lines 229-231 and 293-295); symmetric to mark_mine_each. -/
def AIState.mark_safe_each (st : AIState) (ms : Finset Cell) : AIState :=
  if ms = ∅ then st
  else
    { st with
      safes := st.safes ∪ ms,
      knowledge := (st.knowledge.map (fun s => s.mark_safe_all ms)).filter
        (fun s => decide (s.cells ≠ ∅)) }

/-- MinesweeperAI.mark_mines_safes (lines 283-295), iteration state.  The
Python loop walks a shallow copy of the knowledge list; the pending argument
carries the current values of the not yet visited copied objects (they all
receive exactly the mutations applied to the live list, and an object already
emptied and removed is left empty, which makes its own turn a no-op, exactly
as in the source).  The fuel argument is the length of the pending list; it
is passed exactly and is therefore never exhausted, and it only serves to
make the recursion structural. -/
def mms_go : ℕ → AIState → List Sentence → AIState
  | 0, st, _ => st
  | _ + 1, st, [] => st
  | n + 1, st, s :: rest =>
    if (s.cells.card : ℤ) = s.count then
      mms_go n (st.mark_mine_each s.cells) (rest.map (fun t => t.mark_mine_all s.cells))
    else if s.count = 0 then
      mms_go n (st.mark_safe_each s.cells) (rest.map (fun t => t.mark_safe_all s.cells))
    else mms_go n st rest

/-- MinesweeperAI.mark_mines_safes (lines 283-295): resolve every sentence of
a snapshot of the knowledge list whose cells are all mines (len == count) or
all safe (count == 0). -/
def AIState.mark_mines_safes (st : AIState) : AIState :=
  mms_go st.knowledge.length st st.knowledge

/-- The guard of the subset-resolution step (line 309-310): the two sentences
differ (by value, as Python != uses the Sentence \_\_eq\_\_), both are
non-empty, and the first cell set is a subset of the second. -/
def di_cond (a b : Sentence) : Prop :=
  a ≠ b ∧ a.cells ≠ ∅ ∧ b.cells ≠ ∅ ∧ a.cells ⊆ b.cells

instance (a b : Sentence) : Decidable (di_cond a b) :=
  inferInstanceAs (Decidable (a ≠ b ∧ a.cells ≠ ∅ ∧ b.cells ≠ ∅ ∧ a.cells ⊆ b.cells))

/-- The subset-resolution update (lines 311-312): replace the cells of the
second sentence by the set difference and its count by the count difference. -/
def subset_resolve (a b : Sentence) : Sentence :=
  ⟨b.cells \ a.cells, b.count - a.count⟩

/-- Inner loop of one pass of draw_interferences (lines 307-313) for a fixed
outer sentence value a: visit the positions js of the list, and at each
position whose current value b satisfies the guard, overwrite it with
subset_resolve a b and set the drawn flag.  Positions track Python object
identity: in-place mutation never reorders the list during a pass. -/
def di_inner (a : Sentence) : List ℕ → List Sentence → Bool → List Sentence × Bool
  | [], l, drawn => (l, drawn)
  | j :: js, l, drawn =>
    let b := l.getD j ⟨∅, 0⟩
    if di_cond a b then di_inner a js (l.set j (subset_resolve a b)) true
    else di_inner a js l drawn

/-- Outer loop of one pass of draw_interferences (lines 306-313): for each
position, take the current value at that position as sentence1 and run the
inner loop over all positions.  The value of sentence1 is stable during its
own inner loop: the guard skips the pair when the values are equal, and a
strict subset relation both ways is impossible, so sentence1 is never the
overwritten side of a firing pair of its own round. -/
def di_outer : List ℕ → List Sentence → Bool → List Sentence × Bool
  | [], l, drawn => (l, drawn)
  | i :: is, l, drawn =>
    let p := di_inner (l.getD i ⟨∅, 0⟩) (List.range l.length) l drawn
    di_outer is p.1 p.2

/-- One pass of the while-loop body of draw_interferences (lines 303-313):
reset drawn, compare every ordered pair of positions of the snapshot. -/
def di_pass (l : List Sentence) : List Sentence × Bool :=
  di_outer (List.range l.length) l false

/-- Total cell-membership count over all sentences of a knowledge list. -/
def totalCells (l : List Sentence) : ℕ :=
  (l.map (fun s => s.cells.card)).sum

/-- The while-loop of draw_interferences (lines 298-315) with an explicit
iteration bound: run one pass, then mark_mines_safes, and repeat while the
pass drew something.  Each drawing pass strictly decreases totalCells and
mark_mines_safes never increases it, so a fuel of totalCells + 1 is never
exhausted (proved below); the fuel only makes the recursion structural. -/
def di_loop : ℕ → AIState → AIState
  | 0, st => st
  | n + 1, st =>
    if (di_pass st.knowledge).2 then
      di_loop n (AIState.mark_mines_safes { st with knowledge := (di_pass st.knowledge).1 })
    else AIState.mark_mines_safes { st with knowledge := (di_pass st.knowledge).1 }

/-- MinesweeperAI.draw_interferences (lines 298-315). -/
def AIState.draw_interferences (st : AIState) : AIState :=
  di_loop (totalCells st.knowledge + 1) st

/-- The neighbor computation of add_knowledge (lines 212-217): all cells
within one row and one column, inside the grid bounds and distinct from the
cell itself. -/
def neighbor_cells (height width : ℕ) (cell : Cell) : Finset Cell :=
  (((Finset.range 3).product (Finset.range 3)).image
      (fun p => (cell.1 - 1 + (p.1 : ℤ), cell.2 - 1 + (p.2 : ℤ)))).filter
    (fun c => 0 ≤ c.1 ∧ c.1 < (height : ℤ) ∧ 0 ≤ c.2 ∧ c.2 < (width : ℤ) ∧ c ≠ cell)

/-- Python `a or b` applied to two sets: the first set if it is truthy
(non-empty), otherwise the second.  Used verbatim by line 222. -/
def py_or (a b : Finset Cell) : Finset Cell :=
  if a = ∅ then b else a

/-- The membership test of line 222: `neighbor not in (self.moves_made or
self.mines or self.safes)`.  The parenthesised expression evaluates (left
associatively) to the first non-empty of the three sets, not to their
union. -/
def or_chain (st : AIState) : Finset Cell :=
  py_or (py_or st.moves_made st.mines) st.safes

/-- The cell set of the new sentence built by add_knowledge (lines 220-223):
neighbors that fail the line 222 membership test. -/
def sentence_cells (st : AIState) (cell : Cell) : Finset Cell :=
  (neighbor_cells st.height st.width cell).filter (fun n => n ∉ or_chain st)

/-- The count of the new sentence built by add_knowledge (lines 220-225):
the given count decremented once for each neighbor that passes the line 222
membership test and is a known mine (the elif on lines 224-225). -/
def sentence_count (st : AIState) (cell : Cell) (count : ℤ) : ℤ :=
  count - (((neighbor_cells st.height st.width cell).filter
    (fun n => n ∈ or_chain st ∧ n ∈ st.mines)).card : ℤ)

/-- Lines 227-236 of add_knowledge: if the adjusted count is zero, mark every
cell of the new sentence safe; otherwise if the cell count equals the
adjusted count, mark every cell a mine; otherwise do nothing. -/
def AIState.apply_deductions (st : AIState) (cells : Finset Cell) (cnt : ℤ) : AIState :=
  if cnt = 0 then st.mark_safe_each cells
  else if (cells.card : ℤ) = cnt then st.mark_mine_each cells
  else st

/-- MinesweeperAI.add_knowledge (lines 189-246): record the move, mark the
cell safe, build the new sentence from the surviving neighbors and adjusted
count, apply the direct deductions of lines 227-236, append the new sentence
unconditionally (lines 239-240), then run mark_mines_safes and
draw_interferences. -/
def AIState.add_knowledge (st : AIState) (cell : Cell) (count : ℤ) : AIState :=
  let st2 := AIState.mark_safe { st with moves_made := insert cell st.moves_made } cell
  let cells := sentence_cells st2 cell
  let cnt := sentence_count st2 cell count
  let st3 := st2.apply_deductions cells cnt
  AIState.draw_interferences
    (AIState.mark_mines_safes { st3 with knowledge := st3.knowledge ++ [⟨cells, cnt⟩] })

/-- A concrete element of a non-empty finite set of cells: the one with the
least row and, among those, the least column.  Python set.pop returns an
unspecified element; this is the deterministic stand-in for it, and every
property proved about the selectors only uses membership, which holds for
any choice. -/
def pickMin (s : Finset Cell) (h : s.Nonempty) : Cell :=
  let r := (s.image Prod.fst).min' (h.image Prod.fst)
  (r, ((s.filter (fun c => c.1 = r)).image Prod.snd).min' (by
    have hr := Finset.min'_mem (s.image Prod.fst) (h.image Prod.fst)
    obtain ⟨c, hc, hc1⟩ := Finset.mem_image.mp hr
    exact Finset.Nonempty.image ⟨c, Finset.mem_filter.mpr ⟨hc, hc1⟩⟩ Prod.snd))

/-- set.pop on a possibly-empty set: none when empty, some element otherwise. -/
def pickCell (s : Finset Cell) : Option Cell :=
  if h : s.Nonempty then some (pickMin s h) else none

/-- MinesweeperAI.make_safe_move (lines 250-263): the difference of safes and
moves_made; None when it is empty, otherwise one of its elements (set.pop).
The method reads self but never writes it: safes.difference allocates a new
set and pop mutates only that local set, so the returned state is the input
state unchanged. -/
def AIState.make_safe_move (st : AIState) : AIState × Option Cell :=
  (st, pickCell (st.safes \ st.moves_made))

/-- The nested loops of make_random_move (lines 272-277) before filtering:
all grid cells in row-major order. -/
def grid_cells (height width : ℕ) : List Cell :=
  (List.range height).flatMap (fun r => (List.range width).map (fun c => ((r : ℤ), (c : ℤ))))

/-- MinesweeperAI.make_random_move (lines 265-281): collect the grid cells
that are neither moves already made nor known mines; None when the list is
empty, otherwise random.choice picks some element of it, modelled by the
first element (every property proved only uses list membership, which holds
for any choice).  The method never writes self. -/
def AIState.make_random_move (st : AIState) : AIState × Option Cell :=
  (st, ((grid_cells st.height st.width).filter
    (fun c => decide (c ∉ st.moves_made ∧ c ∉ st.mines))).head?)


/-- Concrete engine state on a 1 by 2 grid reached by the public calls
mark_mine((0,1)) and then the first two steps of add_knowledge((0,0), 1)
(record the move, mark the cell safe): this is exactly the state the
partition loop of lines 219-225 reads during that call. -/
def c1_state : AIState :=
  AIState.mark_safe
    { ((AIState.init 1 2).mark_mine (0,1)) with
      moves_made := insert (0,0) ((AIState.init 1 2).mark_mine (0,1)).moves_made }
    (0,0)

/-- Concrete engine state whose knowledge base holds the single sentence of
spec scenario 2: the cells (0,0) and (0,1) with count 1. -/
def c5_state : AIState :=
  ⟨3, 3, ∅, ∅, ∅, [⟨{((0:ℤ),(0:ℤ)), ((0:ℤ),(1:ℤ))}, 1⟩]⟩

theorem totalCells_nil : totalCells [] = 0 := rfl

theorem totalCells_cons (s : Sentence) (l : List Sentence) :
    totalCells (s :: l) = s.cells.card + totalCells l := by
  simp [totalCells]

theorem totalCells_filter_le (p : Sentence → Bool) (l : List Sentence) :
    totalCells (l.filter p) ≤ totalCells l := by
  induction l with
  | nil => simp
  | cons s t ih =>
    rw [List.filter_cons]
    split
    · rw [totalCells_cons, totalCells_cons]
      exact Nat.add_le_add_left ih _
    · rw [totalCells_cons]
      exact le_trans ih (Nat.le_add_left _ _)

theorem totalCells_map_le (f : Sentence → Sentence)
    (h : ∀ s, (f s).cells.card ≤ s.cells.card) (l : List Sentence) :
    totalCells (l.map f) ≤ totalCells l := by
  induction l with
  | nil => simp
  | cons s t ih =>
    rw [List.map_cons, totalCells_cons, totalCells_cons]
    exact Nat.add_le_add (h s) ih

theorem card_mark_mine_all_le (s : Sentence) (ms : Finset Cell) :
    (s.mark_mine_all ms).cells.card ≤ s.cells.card :=
  Finset.card_le_card Finset.sdiff_subset

theorem card_mark_safe_all_le (s : Sentence) (ms : Finset Cell) :
    (s.mark_safe_all ms).cells.card ≤ s.cells.card :=
  Finset.card_le_card Finset.sdiff_subset

theorem total_mark_mine_each_le (st : AIState) (ms : Finset Cell) :
    totalCells (st.mark_mine_each ms).knowledge ≤ totalCells st.knowledge := by
  unfold AIState.mark_mine_each
  split
  · exact le_refl _
  · exact le_trans (totalCells_filter_le _ _)
      (totalCells_map_le _ (fun s => card_mark_mine_all_le s ms) _)

theorem total_mark_safe_each_le (st : AIState) (ms : Finset Cell) :
    totalCells (st.mark_safe_each ms).knowledge ≤ totalCells st.knowledge := by
  unfold AIState.mark_safe_each
  split
  · exact le_refl _
  · exact le_trans (totalCells_filter_le _ _)
      (totalCells_map_le _ (fun s => card_mark_safe_all_le s ms) _)

theorem moves_mark_mine_each (st : AIState) (ms : Finset Cell) :
    (st.mark_mine_each ms).moves_made = st.moves_made := by
  unfold AIState.mark_mine_each
  split <;> rfl

theorem moves_mark_safe_each (st : AIState) (ms : Finset Cell) :
    (st.mark_safe_each ms).moves_made = st.moves_made := by
  unfold AIState.mark_safe_each
  split <;> rfl

theorem safes_mark_mine_each (st : AIState) (ms : Finset Cell) :
    (st.mark_mine_each ms).safes = st.safes := by
  unfold AIState.mark_mine_each
  split <;> rfl

theorem safes_mark_safe_each (st : AIState) (ms : Finset Cell) :
    st.safes ⊆ (st.mark_safe_each ms).safes := by
  unfold AIState.mark_safe_each
  split
  · exact Finset.Subset.refl _
  · exact Finset.subset_union_left

theorem mms_go_total_le : ∀ (n : ℕ) (st : AIState) (l : List Sentence),
    totalCells (mms_go n st l).knowledge ≤ totalCells st.knowledge := by
  intro n
  induction n with
  | zero => intro st l; exact le_refl _
  | succ n ih =>
    intro st l
    cases l with
    | nil => exact le_refl _
    | cons s rest =>
      simp only [mms_go]
      split
      · exact le_trans (ih _ _) (total_mark_mine_each_le _ _)
      · split
        · exact le_trans (ih _ _) (total_mark_safe_each_le _ _)
        · exact ih _ _

theorem mms_go_moves : ∀ (n : ℕ) (st : AIState) (l : List Sentence),
    (mms_go n st l).moves_made = st.moves_made := by
  intro n
  induction n with
  | zero => intro st l; rfl
  | succ n ih =>
    intro st l
    cases l with
    | nil => rfl
    | cons s rest =>
      simp only [mms_go]
      split
      · rw [ih, moves_mark_mine_each]
      · split
        · rw [ih, moves_mark_safe_each]
        · exact ih _ _

theorem mms_go_safes : ∀ (n : ℕ) (st : AIState) (l : List Sentence),
    st.safes ⊆ (mms_go n st l).safes := by
  intro n
  induction n with
  | zero => intro st l; exact Finset.Subset.refl _
  | succ n ih =>
    intro st l
    cases l with
    | nil => exact Finset.Subset.refl _
    | cons s rest =>
      simp only [mms_go]
      split
      · have h1 := ih (st.mark_mine_each s.cells) (rest.map (fun t => t.mark_mine_all s.cells))
        rw [safes_mark_mine_each] at h1
        exact h1
      · split
        · exact Finset.Subset.trans (safes_mark_safe_each st s.cells) (ih _ _)
        · exact ih _ _

theorem mark_mines_safes_total_le (st : AIState) :
    totalCells (st.mark_mines_safes).knowledge ≤ totalCells st.knowledge :=
  mms_go_total_le _ _ _

theorem mark_mines_safes_moves (st : AIState) :
    (st.mark_mines_safes).moves_made = st.moves_made :=
  mms_go_moves _ _ _

theorem mark_mines_safes_safes (st : AIState) :
    st.safes ⊆ (st.mark_mines_safes).safes :=
  mms_go_safes _ _ _

theorem subset_resolve_card_lt (a b : Sentence) (h : di_cond a b) :
    (subset_resolve a b).cells.card < b.cells.card := by
  obtain ⟨h1, h2, h3, h4⟩ := h
  have hd : (b.cells \ a.cells).card = b.cells.card - a.cells.card :=
    Finset.card_sdiff h4
  have hle := Finset.card_le_card h4
  have hpos : 0 < a.cells.card :=
    Finset.card_pos.mpr (Finset.nonempty_iff_ne_empty.mpr h2)
  show (b.cells \ a.cells).card < b.cells.card
  omega

theorem totalCells_set (l : List Sentence) (j : ℕ) (s : Sentence) (h : j < l.length) :
    totalCells (l.set j s) + (l.getD j ⟨∅, 0⟩).cells.card
      = totalCells l + s.cells.card := by
  induction l generalizing j with
  | nil => simp at h
  | cons a t ih =>
    cases j with
    | zero =>
      simp only [List.set, List.getD, totalCells_cons]
      simp only [List.get?, Option.getD]
      omega
    | succ j =>
      have h' : j < t.length := by simpa using h
      simp only [List.set, totalCells_cons]
      have hgd : (a :: t).getD (j + 1) ⟨∅, 0⟩ = t.getD j ⟨∅, 0⟩ := rfl
      rw [hgd]
      have := ih j h'
      omega

theorem di_cond_default (a : Sentence) : ¬ di_cond a ⟨∅, 0⟩ := by
  rintro ⟨h1, h2, h3, h4⟩
  exact h3 rfl

theorem di_inner_total_le (a : Sentence) :
    ∀ (js : List ℕ) (l : List Sentence) (d : Bool),
      totalCells (di_inner a js l d).1 ≤ totalCells l := by
  intro js
  induction js with
  | nil => intro l d; exact le_refl _
  | cons j js ih =>
    intro l d
    simp only [di_inner]
    split
    · rename_i hcond
      refine le_trans (ih _ _) ?_
      by_cases hj : j < l.length
      · have hset := totalCells_set l j (subset_resolve a (l.getD j ⟨∅, 0⟩)) hj
        have hlt := subset_resolve_card_lt a (l.getD j ⟨∅, 0⟩) hcond
        omega
      · exfalso
        have hd : l.getD j ⟨∅, 0⟩ = ⟨∅, 0⟩ :=
          List.getD_eq_default _ _ (le_of_not_lt hj)
        rw [hd] at hcond
        exact di_cond_default a hcond
    · exact ih _ _

theorem di_inner_false (a : Sentence) :
    ∀ (js : List ℕ) (l : List Sentence) (d : Bool),
      (di_inner a js l d).2 = false → d = false ∧ (di_inner a js l d).1 = l := by
  intro js
  induction js with
  | nil => intro l d h; exact ⟨h, rfl⟩
  | cons j js ih =>
    intro l d
    simp only [di_inner]
    split
    · intro h
      exact absurd (ih _ _ h).1 (by simp)
    · intro h
      exact ih _ _ h

theorem di_inner_strict (a : Sentence) :
    ∀ (js : List ℕ) (l : List Sentence),
      (di_inner a js l false).2 = true →
        totalCells (di_inner a js l false).1 < totalCells l := by
  intro js
  induction js with
  | nil => intro l h; simp [di_inner] at h
  | cons j js ih =>
    intro l
    simp only [di_inner]
    split
    · rename_i hcond
      intro _
      by_cases hj : j < l.length
      · have hset := totalCells_set l j (subset_resolve a (l.getD j ⟨∅, 0⟩)) hj
        have hlt := subset_resolve_card_lt a (l.getD j ⟨∅, 0⟩) hcond
        have hrest := di_inner_total_le a js (l.set j (subset_resolve a (l.getD j ⟨∅, 0⟩))) true
        omega
      · exfalso
        have hd : l.getD j ⟨∅, 0⟩ = ⟨∅, 0⟩ :=
          List.getD_eq_default _ _ (le_of_not_lt hj)
        rw [hd] at hcond
        exact di_cond_default a hcond
    · exact ih _

theorem di_outer_total_le :
    ∀ (is : List ℕ) (l : List Sentence) (d : Bool),
      totalCells (di_outer is l d).1 ≤ totalCells l := by
  intro is
  induction is with
  | nil => intro l d; exact le_refl _
  | cons i is ih =>
    intro l d
    simp only [di_outer]
    exact le_trans (ih _ _) (di_inner_total_le _ _ _ _)

theorem di_outer_false :
    ∀ (is : List ℕ) (l : List Sentence) (d : Bool),
      (di_outer is l d).2 = false → d = false ∧ (di_outer is l d).1 = l := by
  intro is
  induction is with
  | nil => intro l d h; exact ⟨h, rfl⟩
  | cons i is ih =>
    intro l d
    simp only [di_outer]
    intro h
    have h1 := ih _ _ h
    have h2 := di_inner_false _ _ _ _ h1.1
    refine ⟨h2.1, ?_⟩
    rw [h1.2, h2.2]

theorem di_outer_strict :
    ∀ (is : List ℕ) (l : List Sentence),
      (di_outer is l false).2 = true →
        totalCells (di_outer is l false).1 < totalCells l := by
  intro is
  induction is with
  | nil => intro l h; simp [di_outer] at h
  | cons i is ih =>
    intro l
    simp only [di_outer]
    intro h
    by_cases hp :
        (di_inner (l.getD i ⟨∅, 0⟩) (List.range l.length) l false).2 = true
    · have hlt := di_inner_strict (l.getD i ⟨∅, 0⟩) (List.range l.length) l hp
      have hle := di_outer_total_le is
        (di_inner (l.getD i ⟨∅, 0⟩) (List.range l.length) l false).1
        (di_inner (l.getD i ⟨∅, 0⟩) (List.range l.length) l false).2
      omega
    · have hfalse : (di_inner (l.getD i ⟨∅, 0⟩) (List.range l.length) l false).2 = false :=
        Bool.not_eq_true _ ▸ (by simpa using hp)
      have hin := di_inner_false _ _ _ _ hfalse
      rw [hin.2, hfalse] at h ⊢
      exact ih _ h

theorem di_pass_strict (l : List Sentence) :
    (di_pass l).2 = true → totalCells (di_pass l).1 < totalCells l :=
  di_outer_strict _ _

theorem di_pass_false (l : List Sentence) :
    (di_pass l).2 = false → (di_pass l).1 = l :=
  fun h => (di_outer_false _ _ _ h).2

theorem di_loop_congr :
    ∀ (t n m : ℕ) (st : AIState), totalCells st.knowledge = t →
      t < n → t < m → di_loop n st = di_loop m st := by
  intro t
  induction t using Nat.strong_induction_on with
  | _ t ih =>
    intro n m st ht hn hm
    cases n with
    | zero => omega
    | succ n =>
      cases m with
      | zero => omega
      | succ m =>
        simp only [di_loop]
        by_cases hp : (di_pass st.knowledge).2 = true
        · rw [if_pos hp, if_pos hp]
          have h1 : totalCells (di_pass st.knowledge).1 < t := by
            rw [← ht]; exact di_pass_strict _ hp
          have h2 : totalCells
              (AIState.mark_mines_safes
                { st with knowledge := (di_pass st.knowledge).1 }).knowledge
              ≤ totalCells (di_pass st.knowledge).1 :=
            mark_mines_safes_total_le _
          exact ih _ (by omega) n m _ rfl (by omega) (by omega)
        · rw [if_neg hp, if_neg hp]

theorem di_loop_moves : ∀ (n : ℕ) (st : AIState),
    (di_loop n st).moves_made = st.moves_made := by
  intro n
  induction n with
  | zero => intro st; rfl
  | succ n ih =>
    intro st
    simp only [di_loop]
    split
    · rw [ih, mark_mines_safes_moves]
    · rw [mark_mines_safes_moves]

theorem di_loop_safes : ∀ (n : ℕ) (st : AIState),
    st.safes ⊆ (di_loop n st).safes := by
  intro n
  induction n with
  | zero => intro st; exact Finset.Subset.refl _
  | succ n ih =>
    intro st
    simp only [di_loop]
    split
    · exact Finset.Subset.trans
        (mark_mines_safes_safes { st with knowledge := (di_pass st.knowledge).1 })
        (ih _)
    · exact mark_mines_safes_safes { st with knowledge := (di_pass st.knowledge).1 }

theorem draw_interferences_moves (st : AIState) :
    (st.draw_interferences).moves_made = st.moves_made :=
  di_loop_moves _ _

theorem draw_interferences_safes (st : AIState) :
    st.safes ⊆ (st.draw_interferences).safes :=
  di_loop_safes _ _

theorem apply_deductions_moves (st : AIState) (cells : Finset Cell) (cnt : ℤ) :
    (st.apply_deductions cells cnt).moves_made = st.moves_made := by
  unfold AIState.apply_deductions
  split
  · exact moves_mark_safe_each _ _
  · split
    · exact moves_mark_mine_each _ _
    · rfl

theorem apply_deductions_safes (st : AIState) (cells : Finset Cell) (cnt : ℤ) :
    st.safes ⊆ (st.apply_deductions cells cnt).safes := by
  unfold AIState.apply_deductions
  split
  · exact safes_mark_safe_each _ _
  · split
    · exact le_of_eq (safes_mark_mine_each _ _).symm
    · exact Finset.Subset.refl _

theorem add_knowledge_moves (st : AIState) (cell : Cell) (count : ℤ) :
    (st.add_knowledge cell count).moves_made = insert cell st.moves_made := by
  unfold AIState.add_knowledge
  rw [draw_interferences_moves, mark_mines_safes_moves]
  show (AIState.apply_deductions _ _ _).moves_made = _
  rw [apply_deductions_moves]
  rfl

theorem add_knowledge_safes (st : AIState) (cell : Cell) (count : ℤ) :
    insert cell st.safes ⊆ (st.add_knowledge cell count).safes := by
  unfold AIState.add_knowledge
  refine Finset.Subset.trans ?_ (draw_interferences_safes _)
  refine Finset.Subset.trans ?_ (mark_mines_safes_safes _)
  exact apply_deductions_safes
    (AIState.mark_safe { st with moves_made := insert cell st.moves_made } cell) _ _

theorem pair_mem_of_mem_image_snd (s : Finset Cell) (r x : ℤ)
    (hx : x ∈ (s.filter (fun c => c.1 = r)).image Prod.snd) : (r, x) ∈ s := by
  obtain ⟨c, hcf, hc2⟩ := Finset.mem_image.mp hx
  obtain ⟨hcs, hc1⟩ := Finset.mem_filter.mp hcf
  have hrx : (r, x) = c := by rw [← hc1, ← hc2]
  rwa [hrx]

theorem pickMin_mem (s : Finset Cell) (h : s.Nonempty) : pickMin s h ∈ s :=
  pair_mem_of_mem_image_snd s _ _ (Finset.min'_mem _ _)

theorem pickCell_mem (s : Finset Cell) (c : Cell) (h : pickCell s = some c) :
    c ∈ s := by
  unfold pickCell at h
  split at h
  · rename_i hne
    have : pickMin s hne = c := Option.some.inj h
    rw [← this]
    exact pickMin_mem s hne
  · exact absurd h (by simp)

theorem pickCell_none_iff (s : Finset Cell) : pickCell s = none ↔ s = ∅ := by
  unfold pickCell
  split
  · rename_i hne
    simp only [reduceCtorEq, false_iff]
    exact Finset.nonempty_iff_ne_empty.mp hne
  · rename_i hne
    simp only [true_iff]
    exact Finset.not_nonempty_iff_eq_empty.mp hne

theorem head?_mem {α : Type} (l : List α) (c : α) (h : l.head? = some c) :
    c ∈ l := by
  cases l with
  | nil => simp at h
  | cons a t =>
    simp only [List.head?_cons, Option.some.injEq] at h
    rw [← h]
    exact List.mem_cons_self a t

theorem head?_none_iff {α : Type} (l : List α) : l.head? = none ↔ l = [] := by
  cases l <;> simp

theorem di_inner_cons (a : Sentence) (j : ℕ) (js : List ℕ) (l : List Sentence) (d : Bool) :
    di_inner a (j :: js) l d =
      if di_cond a (l.getD j ⟨∅, 0⟩) then
        di_inner a js (l.set j (subset_resolve a (l.getD j ⟨∅, 0⟩))) true
      else di_inner a js l d := rfl

theorem di_inner_nil (a : Sentence) (l : List Sentence) (d : Bool) :
    di_inner a [] l d = (l, d) := rfl

theorem di_outer_cons (i : ℕ) (is : List ℕ) (l : List Sentence) (d : Bool) :
    di_outer (i :: is) l d =
      di_outer is (di_inner (l.getD i ⟨∅, 0⟩) (List.range l.length) l d).1
        (di_inner (l.getD i ⟨∅, 0⟩) (List.range l.length) l d).2 := rfl

theorem di_outer_nil (l : List Sentence) (d : Bool) :
    di_outer [] l d = (l, d) := rfl

/-- Claim C1 (code bug).  On a 1 by 2 grid with (0,1) already a known mine,
the state read by the partition loop of add_knowledge((0,0), 1) after steps
1 and 2 is c1_state.  The claim says the new sentence excludes the known
mine (0,1) and carries count 1 - 1 = 0; the code instead tests membership in
the Python expression (moves_made or mines or safes), which evaluates to
moves_made alone, so the known mine stays in the sentence cell set and the
count stays 1. -/
theorem claim_C1_failing :
    ((0:ℤ), (1:ℤ)) ∈ c1_state.mines ∧
    ((0:ℤ), (1:ℤ)) ∈ sentence_cells c1_state (0, 0) ∧
    sentence_count c1_state (0, 0) 1 = 1 := by decide

/-- Claim C2 (code bug).  After the public call add_knowledge((0,0), 0) on a
fresh 1 by 1 engine, the knowledge base still contains the sentence with the
empty cell set and count 0: add_knowledge appends its new sentence
unconditionally (lines 239-240) and draw_interferences never removes it, so
the claimed invariant (no empty sentence survives a public operation) fails
on the code. -/
theorem claim_C2_failing :
    (⟨(∅ : Finset Cell), 0⟩ : Sentence) ∈
      ((AIState.init 1 1).add_knowledge (0, 0) 0).knowledge := by decide

/-- Claim C3, counterexample.  Both states below are reached by public
operations only: mark_mine((0,1)) on a fresh 1 by 2 engine and then
add_knowledge((0,0), 0).  Afterwards the cell (0,1) lies in safes and in
mines simultaneously, so the claimed disjointness invariant fails after a
public operation (the or-short-circuit of line 222 lets the known mine into
the new sentence, whose count 0 then marks it safe). -/
theorem claim_C3_counterexample :
    ((0:ℤ), (1:ℤ)) ∈ (((AIState.init 1 2).mark_mine (0,1)).add_knowledge (0,0) 0).safes ∧
    ((0:ℤ), (1:ℤ)) ∈ (((AIState.init 1 2).mark_mine (0,1)).add_knowledge (0,0) 0).mines := by
  decide

/-- Claim C3 as amended.  Every public operation preserves the inclusion of
moves_made in safes (the selectors do not change the state at all); the
disjointness of safes and mines, by contrast, is only preserved by mark_mine
when the cell is not already known safe and by mark_safe when the cell is
not already a known mine, and add_knowledge can break it (see the
counterexample). -/
theorem claim_C3_amended :
    (∀ (st : AIState) (c : Cell), st.moves_made ⊆ st.safes →
      (st.mark_mine c).moves_made ⊆ (st.mark_mine c).safes) ∧
    (∀ (st : AIState) (c : Cell), st.moves_made ⊆ st.safes →
      (st.mark_safe c).moves_made ⊆ (st.mark_safe c).safes) ∧
    (∀ (st : AIState) (c : Cell) (k : ℤ), st.moves_made ⊆ st.safes →
      (st.add_knowledge c k).moves_made ⊆ (st.add_knowledge c k).safes) ∧
    (∀ st : AIState, (st.make_safe_move).1 = st ∧ (st.make_random_move).1 = st) ∧
    (∀ (st : AIState) (c : Cell), st.safes ∩ st.mines = ∅ → c ∉ st.safes →
      (st.mark_mine c).safes ∩ (st.mark_mine c).mines = ∅) ∧
    (∀ (st : AIState) (c : Cell), st.safes ∩ st.mines = ∅ → c ∉ st.mines →
      (st.mark_safe c).safes ∩ (st.mark_safe c).mines = ∅) := by
  refine ⟨?_, ?_, ?_, ?_, ?_, ?_⟩
  · intro st c h
    exact h
  · intro st c h
    exact Finset.Subset.trans h (Finset.subset_insert c st.safes)
  · intro st c k h
    rw [add_knowledge_moves]
    exact Finset.Subset.trans (Finset.insert_subset_insert c h) (add_knowledge_safes st c k)
  · intro st
    exact ⟨rfl, rfl⟩
  · intro st c hdisj hc
    show st.safes ∩ insert c st.mines = ∅
    apply Finset.eq_empty_iff_forall_not_mem.mpr
    intro x hx
    obtain ⟨hxs, hxm⟩ := Finset.mem_inter.mp hx
    rcases Finset.mem_insert.mp hxm with hxc | hxm2
    · exact hc (hxc ▸ hxs)
    · exact Finset.eq_empty_iff_forall_not_mem.mp hdisj x (Finset.mem_inter.mpr ⟨hxs, hxm2⟩)
  · intro st c hdisj hc
    show insert c st.safes ∩ st.mines = ∅
    apply Finset.eq_empty_iff_forall_not_mem.mpr
    intro x hx
    obtain ⟨hxs, hxm⟩ := Finset.mem_inter.mp hx
    rcases Finset.mem_insert.mp hxs with hxc | hxs2
    · exact hc (hxc ▸ hxm)
    · exact Finset.eq_empty_iff_forall_not_mem.mp hdisj x (Finset.mem_inter.mpr ⟨hxs2, hxm⟩)

/-- Witness for the amended claim C3 at concrete inputs. -/
theorem claim_C3_amended_witness :
    (((AIState.init 2 2).add_knowledge (0,0) 0).moves_made ⊆
      ((AIState.init 2 2).add_knowledge (0,0) 0).safes) ∧
    (((AIState.init 2 2).mark_mine (1,1)).safes ∩
      ((AIState.init 2 2).mark_mine (1,1)).mines = ∅) :=
  by
  constructor
  · exact claim_C3_amended.2.2.1 _ _ _ (by decide)
  · exact claim_C3_amended.2.2.2.2.1 _ _ (by decide) (by decide)

/-- Claim C4 (code bug).  Sentence.known_safes compares the cell set with
the integer 0 (line 115), which is always false in Python, so the method
returns None for every sentence; in particular it returns None on the
sentence with cells (0,0) and count 0, where the claim requires the cell
set. -/
theorem claim_C4_failing :
    (Sentence.known_safes ⟨{((0:ℤ), (0:ℤ))}, 0⟩ = none) ∧
    (∀ s : Sentence, s.known_safes = none) :=
  ⟨rfl, fun _ => rfl⟩

/-- Claim C5 (confirmed).  From the knowledge base holding exactly the
sentence with cells (0,0), (0,1) and count 1, the public hazard-recording
operation mark_mine((0,0)) turns that sentence into cells (0,1) with count 0
(and records the mine), and the subsequent resolution step mark_mines_safes
puts (0,1) into the known-safe set. -/
theorem claim_C5 :
    ((c5_state.mark_mine (0,0)).knowledge = [⟨{((0:ℤ), (1:ℤ))}, 0⟩]) ∧
    ((c5_state.mark_mine (0,0)).mines = {((0:ℤ), (0:ℤ))}) ∧
    ((0:ℤ), (1:ℤ)) ∈ ((c5_state.mark_mine (0,0)).mark_mines_safes).safes := by decide

/-- Claim C6 (confirmed).  For every ordered pair of distinct non-empty
sentences with the first cell set a subset of the second, one pass of the
deduction fixpoint on the two-sentence knowledge base replaces the second
sentence by the subset-resolution update (cell difference, count
difference); and on the concrete pair of spec scenario 3 the full
draw_interferences run leaves the derived sentence with cells (0,1), (0,2)
and count 1 in the knowledge base. -/
theorem claim_C6 :
    (∀ a b : Sentence, a ≠ b → a.cells ≠ ∅ → b.cells ≠ ∅ → a.cells ⊆ b.cells →
      di_pass [a, b] = ([a, subset_resolve a b], true) ∧
      (subset_resolve a b).cells = b.cells \ a.cells ∧
      (subset_resolve a b).count = b.count - a.count) ∧
    (⟨{((0:ℤ), (1:ℤ)), ((0:ℤ), (2:ℤ))}, 1⟩ : Sentence) ∈
      ((⟨3, 3, ∅, ∅, ∅,
          [⟨{((0:ℤ), (0:ℤ))}, 1⟩,
           ⟨{((0:ℤ), (0:ℤ)), ((0:ℤ), (1:ℤ)), ((0:ℤ), (2:ℤ))}, 2⟩]⟩ :
        AIState).draw_interferences).knowledge := by
  constructor
  · intro a b hne hA hB hsub
    have hc : di_cond a b := ⟨hne, hA, hB, hsub⟩
    have hnaa : ¬ di_cond a a := fun h => h.1 rfl
    have hnra : ¬ di_cond (subset_resolve a b) a := by
      rintro ⟨x1, x2, x3, x4⟩
      obtain ⟨y, hy⟩ := Finset.nonempty_iff_ne_empty.mpr x2
      exact (Finset.mem_sdiff.mp hy).2 (x4 hy)
    have hnrr : ¬ di_cond (subset_resolve a b) (subset_resolve a b) := fun h => h.1 rfl
    have hinner1 : di_inner a [0, 1] [a, b] false = ([a, subset_resolve a b], true) := by
      rw [di_inner_cons, show ([a, b] : List Sentence).getD 0 ⟨∅, 0⟩ = a from rfl,
        if_neg hnaa, di_inner_cons,
        show ([a, b] : List Sentence).getD 1 ⟨∅, 0⟩ = b from rfl, if_pos hc,
        show ([a, b] : List Sentence).set 1 (subset_resolve a b)
          = [a, subset_resolve a b] from rfl,
        di_inner_nil]
    have hinner2 : di_inner (subset_resolve a b) [0, 1] [a, subset_resolve a b] true
        = ([a, subset_resolve a b], true) := by
      rw [di_inner_cons,
        show ([a, subset_resolve a b] : List Sentence).getD 0 ⟨∅, 0⟩ = a from rfl,
        if_neg hnra, di_inner_cons,
        show ([a, subset_resolve a b] : List Sentence).getD 1 ⟨∅, 0⟩
          = subset_resolve a b from rfl,
        if_neg hnrr, di_inner_nil]
    refine ⟨?_, rfl, rfl⟩
    show di_outer (List.range ([a, b] : List Sentence).length) [a, b] false
      = ([a, subset_resolve a b], true)
    rw [show List.range ([a, b] : List Sentence).length = [0, 1] from rfl]
    rw [di_outer_cons, show ([a, b] : List Sentence).getD 0 ⟨∅, 0⟩ = a from rfl,
      show List.range ([a, b] : List Sentence).length = [0, 1] from rfl, hinner1]
    show di_outer [1] [a, subset_resolve a b] true = ([a, subset_resolve a b], true)
    rw [di_outer_cons,
      show ([a, subset_resolve a b] : List Sentence).getD 1 ⟨∅, 0⟩
        = subset_resolve a b from rfl,
      show List.range ([a, subset_resolve a b] : List Sentence).length = [0, 1] from rfl,
      hinner2]
    show di_outer [] [a, subset_resolve a b] true = ([a, subset_resolve a b], true)
    rw [di_outer_nil]
  · decide

/-- Witness for claim C6 at the concrete sentence pair of spec scenario 3. -/
theorem claim_C6_witness :
    di_pass [⟨{((0:ℤ), (0:ℤ))}, 1⟩,
        ⟨{((0:ℤ), (0:ℤ)), ((0:ℤ), (1:ℤ)), ((0:ℤ), (2:ℤ))}, 2⟩]
      = ([⟨{((0:ℤ), (0:ℤ))}, 1⟩,
          subset_resolve ⟨{((0:ℤ), (0:ℤ))}, 1⟩
            ⟨{((0:ℤ), (0:ℤ)), ((0:ℤ), (1:ℤ)), ((0:ℤ), (2:ℤ))}, 2⟩], true) ∧
    (subset_resolve ⟨{((0:ℤ), (0:ℤ))}, 1⟩
        ⟨{((0:ℤ), (0:ℤ)), ((0:ℤ), (1:ℤ)), ((0:ℤ), (2:ℤ))}, 2⟩).cells
      = ({((0:ℤ), (0:ℤ)), ((0:ℤ), (1:ℤ)), ((0:ℤ), (2:ℤ))} : Finset Cell)
          \ {((0:ℤ), (0:ℤ))} ∧
    (subset_resolve ⟨{((0:ℤ), (0:ℤ))}, 1⟩
        ⟨{((0:ℤ), (0:ℤ)), ((0:ℤ), (1:ℤ)), ((0:ℤ), (2:ℤ))}, 2⟩).count = 2 - 1 := by
  exact claim_C6.1 _ _ (by decide) (by decide) (by decide) (by decide)

/-- Claim C7, counterexample.  The observation add_knowledge((5,5), 3) on a
fresh 1 by 1 engine is invalid (cell far outside the grid), yet the code
processes it in full: the cell is recorded in moves_made, marked safe, and
the vacuous sentence with empty cell set and count 3 is appended to the
knowledge base.  No rejection or failure of any kind occurs. -/
theorem claim_C7_counterexample :
    ((AIState.init 1 1).add_knowledge (5, 5) 3).moves_made = {((5:ℤ), (5:ℤ))} ∧
    ((5:ℤ), (5:ℤ)) ∈ ((AIState.init 1 1).add_knowledge (5, 5) 3).safes ∧
    ((AIState.init 1 1).add_knowledge (5, 5) 3).knowledge = [⟨∅, 3⟩] := by decide

/-- Claim C7 as amended.  add_knowledge performs no input validation at all:
for every state, every cell (in or out of bounds, repeated or not) and every
count, the call is processed normally; the cell is always added to
moves_made and always ends up in the known-safe set, and there is no failure
result. -/
theorem claim_C7_amended :
    ∀ (st : AIState) (cell : Cell) (count : ℤ),
      (st.add_knowledge cell count).moves_made = insert cell st.moves_made ∧
      cell ∈ (st.add_knowledge cell count).safes :=
  fun st cell count =>
    ⟨add_knowledge_moves st cell count,
     add_knowledge_safes st cell count (Finset.mem_insert_self cell st.safes)⟩

/-- Claim C8, counterexample.  On a 1 by 1 engine, after the public calls
mark_safe((1,1)) and add_knowledge((0,0), 0), moves_made contains every grid
cell, yet make_safe_move returns the off-grid known-safe cell (1,1) rather
than the claimed empty result. -/
theorem claim_C8_counterexample :
    (∀ c ∈ grid_cells 1 1,
      c ∈ (((AIState.init 1 1).mark_safe (1, 1)).add_knowledge (0, 0) 0).moves_made) ∧
    (((AIState.init 1 1).mark_safe (1, 1)).add_knowledge (0, 0) 0).make_safe_move.2
      = some (1, 1) := by decide

/-- Claim C8 as amended.  make_safe_move returns a member of safes minus
moves_made exactly when that difference is non-empty and the empty result
otherwise; make_random_move never returns a cell already moved on or known
to be a mine, and returns the empty result exactly when every grid cell is
a move made or a known mine; and when moves_made contains every grid cell
and every known-safe cell is a move already made (in particular whenever
safes only holds grid cells), both selectors return the empty result.  The
unamended particular case fails when safes holds an off-grid cell. -/
theorem claim_C8_amended :
    (∀ st : AIState,
      (st.make_safe_move.2 = none ↔ st.safes \ st.moves_made = ∅) ∧
      (∀ c : Cell, st.make_safe_move.2 = some c →
        c ∈ st.safes ∧ c ∉ st.moves_made)) ∧
    (∀ (st : AIState) (c : Cell), st.make_random_move.2 = some c →
      c ∉ st.moves_made ∧ c ∉ st.mines) ∧
    (∀ st : AIState, st.make_random_move.2 = none ↔
      ∀ c ∈ grid_cells st.height st.width, c ∈ st.moves_made ∨ c ∈ st.mines) ∧
    (∀ st : AIState, (∀ c ∈ grid_cells st.height st.width, c ∈ st.moves_made) →
      st.safes ⊆ st.moves_made →
      st.make_safe_move.2 = none ∧ st.make_random_move.2 = none) := by
  have hsafe2 : ∀ st : AIState,
      st.make_safe_move.2 = pickCell (st.safes \ st.moves_made) := fun _ => rfl
  have hrand2 : ∀ st : AIState, st.make_random_move.2 =
      ((grid_cells st.height st.width).filter
        (fun c => decide (c ∉ st.moves_made ∧ c ∉ st.mines))).head? := fun _ => rfl
  have part3 : ∀ st : AIState, st.make_random_move.2 = none ↔
      ∀ c ∈ grid_cells st.height st.width, c ∈ st.moves_made ∨ c ∈ st.mines := by
    intro st
    rw [hrand2, head?_none_iff]
    constructor
    · intro hnil c hcg
      by_contra hcon
      push_neg at hcon
      have hmem : c ∈ (grid_cells st.height st.width).filter
          (fun c => decide (c ∉ st.moves_made ∧ c ∉ st.mines)) := by
        rw [List.mem_filter]
        exact ⟨hcg, by rw [decide_eq_true_eq]; exact ⟨hcon.1, hcon.2⟩⟩
      rw [hnil] at hmem
      simp at hmem
    · intro hall
      rw [List.filter_eq_nil_iff]
      intro c hcg
      rw [decide_eq_true_eq]
      rintro ⟨h1, h2⟩
      rcases hall c hcg with h | h
      · exact h1 h
      · exact h2 h
  refine ⟨?_, ?_, part3, ?_⟩
  · intro st
    constructor
    · rw [hsafe2]
      exact pickCell_none_iff _
    · intro c h
      rw [hsafe2] at h
      have hm := Finset.mem_sdiff.mp (pickCell_mem _ _ h)
      exact ⟨hm.1, hm.2⟩
  · intro st c h
    rw [hrand2] at h
    have hm := head?_mem _ _ h
    rw [List.mem_filter] at hm
    have hp := hm.2
    rw [decide_eq_true_eq] at hp
    exact hp
  · intro st hg hs
    refine ⟨?_, ?_⟩
    · rw [hsafe2]
      exact (pickCell_none_iff _).mpr (Finset.sdiff_eq_empty_iff_subset.mpr hs)
    · exact (part3 st).mpr (fun c hc => Or.inl (hg c hc))

/-- Witness for the amended claim C8 at concrete engine states. -/
theorem claim_C8_amended_witness :
    ((⟨1, 1, {((0:ℤ), (0:ℤ))}, ∅, {((0:ℤ), (0:ℤ))}, []⟩ : AIState).make_safe_move.2
        = none ∧
      (⟨1, 1, {((0:ℤ), (0:ℤ))}, ∅, {((0:ℤ), (0:ℤ))}, []⟩ : AIState).make_random_move.2
        = none) ∧
    (((1:ℤ), (0:ℤ)) ∉ (⟨2, 1, {((0:ℤ), (0:ℤ))}, ∅, ∅, []⟩ : AIState).moves_made ∧
      ((1:ℤ), (0:ℤ)) ∉ (⟨2, 1, {((0:ℤ), (0:ℤ))}, ∅, ∅, []⟩ : AIState).mines) := by
  constructor
  · exact claim_C8_amended.2.2.2 _ (by decide) (by decide)
  · exact claim_C8_amended.2.1 _ _ (by decide)

/-- Claim C9 (confirmed).  Each pass of the deduction fixpoint either sets
the drawn flag and strictly decreases the total cell-membership count summed
over all sentences, or leaves the knowledge base unchanged (and the loop
then exits); consequently the loop terminates, and running it with any
iteration bound larger than the total cell count yields exactly
draw_interferences. -/
theorem claim_C9 :
    (∀ l : List Sentence, (di_pass l).2 = true →
      totalCells (di_pass l).1 < totalCells l) ∧
    (∀ l : List Sentence, (di_pass l).2 = false → (di_pass l).1 = l) ∧
    (∀ (st : AIState) (n : ℕ), totalCells st.knowledge < n →
      di_loop n st = st.draw_interferences) := by
  refine ⟨di_pass_strict, di_pass_false, ?_⟩
  intro st n h
  unfold AIState.draw_interferences
  exact di_loop_congr (totalCells st.knowledge) n (totalCells st.knowledge + 1) st rfl h
    (Nat.lt_succ_self _)

/-- Witness for claim C9: a concrete drawing pass strictly decreases the
total cell count, and a concrete bound larger than the total reproduces
draw_interferences. -/
theorem claim_C9_witness :
    totalCells (di_pass [⟨{((0:ℤ), (0:ℤ))}, 1⟩,
        ⟨{((0:ℤ), (0:ℤ)), ((0:ℤ), (1:ℤ))}, 2⟩]).1
      < totalCells [⟨{((0:ℤ), (0:ℤ))}, 1⟩, ⟨{((0:ℤ), (0:ℤ)), ((0:ℤ), (1:ℤ))}, 2⟩] ∧
    di_loop 2 (AIState.init 1 1) = (AIState.init 1 1).draw_interferences := by
  constructor
  · exact claim_C9.1 _ (by decide)
  · exact claim_C9.2.2 _ 2 (by decide)

/-- Claim C10 (confirmed).  The two move selectors read the state but never
write it: safes.difference allocates a fresh set (pop mutates only that
local), and make_random_move only builds a local list, so the engine state
after either call is identical to the state before. -/
theorem claim_C10 :
    ∀ st : AIState, (st.make_safe_move).1 = st ∧ (st.make_random_move).1 = st :=
  fun _ => ⟨rfl, rfl⟩
